import Mathlib

/-!
Verification of the Smart Task Analyzer scoring core
(`backend/tasks/scoring.py`, `backend/tasks/views.py`, `backend/tasks/utils.py`).

The Python code is shallowly embedded:
  * scores are exact rationals (`ℚ`); the Python arithmetic is plain
    decimal arithmetic on small numbers, modelled exactly;
  * a calendar date is represented by its day number (an `Int`), so that
    `due_date - today` in days is integer subtraction; a due-date string
    that fails `datetime.strptime` is represented by the
    `DueDateInput.invalid` constructor;
  * `round(x, 2)` is modelled by `round2`, rounding to the nearest
    multiple of `1/100` (the claims proved below do not depend on the
    tie-breaking direction of the rounding);
  * the formatted explanation strings are modelled by the values that the
    Python f-strings interpolate (structure `Explanation` and the note
    strings of each factor); numeric sub-strings are rendered with
    `toString` on the exact rational, which is injective in the value;
  * the recursive depth-first search of `detect_circular_dependencies`
    is embedded with an explicit fuel parameter; running out of fuel is
    the `none` result, and termination of the Python recursion is the
    theorem that with the fuel supplied by the embedding the result is
    never `none`;
  * `dict` literals keyed by task id are association lists updated with
    dict semantics (an existing key keeps its position, the value is
    overwritten; a new key is appended).
-/

namespace TaskAnalyzer

/-- A due-date input as `calculate_urgency_score` receives it: a date value
(identified with its day number) or a string that fails to parse as
`YYYY-MM-DD`. -/
inductive DueDateInput where
| valid (dayNumber : Int) : DueDateInput
| invalid (raw : String) : DueDateInput
deriving DecidableEq

/-- A structurally-typed task record as the scoring code reads it:
`id` is present (the view assigns sequential ids before scoring),
`title` may be absent (`task.get('title')`), `importance` and
`estimated_hours` are numbers (Python does not enforce the `int` type
hint on `importance`, so it is any numeric value), `dependencies`
defaults to the empty list when the key is absent. -/
structure Task where
  id : Int
  title : Option String
  due_date : DueDateInput
  estimated_hours : ℚ
  importance : ℚ
  dependencies : List Int
deriving DecidableEq

/-- A strategy weight vector over the four factors. -/
structure WeightVec where
  urgency : ℚ
  importance : ℚ
  effort : ℚ
  dependency : ℚ
deriving DecidableEq

/-- The module-level `STRATEGY_WEIGHTS` table of `scoring.py`. -/
def STRATEGY_WEIGHTS : List (String × WeightVec) :=
  [("FASTEST_WINS", ⟨0.15, 0.15, 0.55, 0.15⟩),
   ("HIGH_IMPACT", ⟨0.15, 0.55, 0.15, 0.15⟩),
   ("DEADLINE_DRIVEN", ⟨0.55, 0.20, 0.10, 0.15⟩),
   ("SMART_BALANCE", ⟨0.25, 0.25, 0.25, 0.25⟩)]

/-- The lookup `STRATEGY_WEIGHTS.get(strategy, STRATEGY_WEIGHTS['SMART_BALANCE'])`
of `calculate_final_score`. -/
def getStrategyWeights (strategy : String) : WeightVec :=
  match STRATEGY_WEIGHTS.lookup strategy with
  | some w => w
  | none => ⟨0.25, 0.25, 0.25, 0.25⟩

/-- Python `round(x, 2)`: rounding to the nearest multiple of `1/100`. -/
def round2 (q : ℚ) : ℚ := (round (q * 100) : ℚ) / 100

/-- Embedding of `calculate_urgency_score` (scoring.py lines 52 to 112).
The pair is `(urgency_score, explanation)`. -/
def calculate_urgency_score (due : DueDateInput) (today : Int) : ℚ × String :=
  match due with
  | .invalid _ => (5.0, "Invalid date format, using default urgency")
  | .valid dueDay =>
    let days_left : Int := dueDay - today
    if days_left < 0 then
      (10.0, "OVERDUE by " ++ toString days_left.natAbs ++ " days - Maximum urgency!")
    else if days_left = 0 then
      (9.0, "Due TODAY - Very high urgency")
    else if days_left ≤ 3 then
      (8.0 - (days_left : ℚ) * 0.3, "Due in " ++ toString days_left ++ " days - High urgency")
    else if days_left ≤ 7 then
      (7.0 - ((days_left : ℚ) - 3) * 0.5, "Due in " ++ toString days_left ++ " days - Medium urgency")
    else if days_left ≤ 14 then
      (5.0 - ((days_left : ℚ) - 7) * 0.3, "Due in " ++ toString days_left ++ " days - Moderate urgency")
    else
      (max 1.0 (3.0 - ((days_left : ℚ) - 14) * 0.1),
        "Due in " ++ toString days_left ++ " days - Low urgency")

/-- Embedding of `calculate_importance_score` (scoring.py lines 115 to 140).
Python only compares the value against 1 and 10 and converts with
`float`, so any numeric value inside the range is returned verbatim. -/
def calculate_importance_score (importance : ℚ) : ℚ × String :=
  if importance < 1 ∨ importance > 10 then
    (5.0, "Invalid importance (must be 1-10), using default")
  else
    let level :=
      if importance ≥ 8 then "Critical importance"
      else if importance ≥ 6 then "High importance"
      else if importance ≥ 4 then "Medium importance"
      else "Low importance"
    (importance, level ++ " (rated " ++ toString importance ++ "/10)")

/-- Embedding of `calculate_effort_score` (scoring.py lines 143 to 186). -/
def calculate_effort_score (estimated_hours : ℚ) : ℚ × String :=
  if estimated_hours ≤ 0 then
    (5.0, "Invalid estimated hours, using default")
  else if estimated_hours < 1 then
    (10.0, "Quick win! (" ++ toString estimated_hours ++ "h) - Maximum effort score")
  else if estimated_hours ≤ 2 then
    (9.0 - (estimated_hours - 1) * 0.5,
      "Fast task (" ++ toString estimated_hours ++ "h) - High effort score")
  else if estimated_hours ≤ 4 then
    (7.5 - (estimated_hours - 2) * 0.75,
      "Moderate task (" ++ toString estimated_hours ++ "h) - Medium effort score")
  else if estimated_hours ≤ 8 then
    (5.5 - (estimated_hours - 4) * 0.375,
      "Substantial task (" ++ toString estimated_hours ++ "h) - Lower effort score")
  else
    (max 1.0 (4.0 - (estimated_hours - 8) * 0.2),
      "Large task (" ++ toString estimated_hours ++ "h) - Low effort score")

/-- The numeric component of `calculate_urgency_score` for a parsed date,
as a function of `days_left` alone (the score of the source does not
depend on anything else). -/
def urgencyVal (d : ℤ) : ℚ :=
  if d < 0 then 10.0
  else if d = 0 then 9.0
  else if d ≤ 3 then 8.0 - (d : ℚ) * 0.3
  else if d ≤ 7 then 7.0 - ((d : ℚ) - 3) * 0.5
  else if d ≤ 14 then 5.0 - ((d : ℚ) - 7) * 0.3
  else max 1.0 (3.0 - ((d : ℚ) - 14) * 0.1)

/-- The numeric component of `calculate_effort_score`. -/
def effortVal (h : ℚ) : ℚ :=
  if h ≤ 0 then 5.0
  else if h < 1 then 10.0
  else if h ≤ 2 then 9.0 - (h - 1) * 0.5
  else if h ≤ 4 then 7.5 - (h - 2) * 0.75
  else if h ≤ 8 then 5.5 - (h - 4) * 0.375
  else max 1.0 (4.0 - (h - 8) * 0.2)

/-- Python `task.get('title', f"Task {task.get('id')}")`. -/
def taskTitle (t : Task) : String := t.title.getD ("Task " ++ toString t.id)

/-- Embedding of `calculate_dependency_score` (scoring.py lines 189 to 220):
the loop accumulates `(blocking_count, blocked_tasks)` over `all_tasks`
and then maps the count through the score table. -/
def calculate_dependency_score (task_id : Int) (all_tasks : List Task) : ℚ × String :=
  let acc := all_tasks.foldl
    (fun (acc : Nat × List String) t =>
      if task_id ∈ t.dependencies then (acc.1 + 1, acc.2 ++ [taskTitle t]) else acc)
    (0, [])
  let blocking_count := acc.1
  let blocked_tasks := acc.2
  if blocking_count = 0 then
    (3.0, "No tasks depend on this")
  else if blocking_count = 1 then
    (6.0, "Blocks 1 task: " ++ blocked_tasks.headD "")
  else if blocking_count = 2 then
    (8.0, "Blocks " ++ toString blocking_count ++ " tasks")
  else
    (min 10.0 (8.0 + ((blocking_count : ℚ) - 2) * 0.5),
      "Blocks " ++ toString blocking_count ++ " tasks - High priority!")

/-- The score table of `calculate_dependency_score` as a function of the
blocking count (named so the loop of the source can be proved equal to
counting followed by this mapping). -/
def dependencyScoreOfCount (n : Nat) : ℚ :=
  if n = 0 then 3.0
  else if n = 1 then 6.0
  else if n = 2 then 8.0
  else min 10.0 (8.0 + ((n : ℚ) - 2) * 0.5)

/-- The blocking count as the specification words it: the number of OTHER
tasks (tasks with a different id) that list `task_id` as a dependency.
This definition follows the words of the spec, for comparison with the
source loop, which counts every task whose dependency list contains
`task_id`. -/
def spec_blocking_count (task_id : Int) (all_tasks : List Task) : Nat :=
  all_tasks.countP (fun t => decide (t.id ≠ task_id) && decide (task_id ∈ t.dependencies))

/-- Association-list update with Python dict semantics: an existing key
keeps its position and gets the new value, a new key is appended. -/
def dictInsert {β : Type} (m : List (Int × β)) (k : Int) (v : β) : List (Int × β) :=
  if m.any (fun p => p.1 == k) then
    m.map (fun p => if p.1 == k then (k, v) else p)
  else
    m ++ [(k, v)]

/-- The adjacency list `graph` built by `detect_circular_dependencies`:
`graph[task_id] = task.get('dependencies', [])` over the batch in order. -/
def buildGraph (tasks : List Task) : List (Int × List Int) :=
  tasks.foldl (fun g t => dictInsert g t.id t.dependencies) []

/-- The `task_map` of `detect_circular_dependencies`:
`task_map[task_id] = task.get('title', f'Task {task_id}')`. -/
def buildTaskMap (tasks : List Task) : List (Int × String) :=
  tasks.foldl (fun m t => dictInsert m t.id (taskTitle t)) []

/-- Python `graph.get(node, [])`. -/
def graphLookup (g : List (Int × List Int)) (k : Int) : List Int :=
  match g.find? (fun p => p.1 == k) with
  | some p => p.2
  | none => []

/-- Python `task_map.get(tid, f'Task {tid}')`. -/
def lookupTitle (m : List (Int × String)) (tid : Int) : String :=
  match m.find? (fun p => p.1 == tid) with
  | some p => p.2
  | none => "Task " ++ toString tid

/-- One iteration of the neighbor loop of `has_cycle_util`: `acc` carries
the cycle found so far (a found cycle short-circuits the remaining
iterations, as the early `return` does in Python) and the current
`visited` set; `recurse` is the recursive DFS call on an unvisited
neighbor. -/
def dfsStep (recurse : Int → List Int → Option (Option (List Int) × List Int))
    (recStack' path' : List Int)
    (acc : Option (Option (List Int) × List Int)) (n : Int) :
    Option (Option (List Int) × List Int) :=
  match acc with
  | none => none
  | some (some c, vis) => some (some c, vis)
  | some (none, vis) =>
    if n ∈ vis then
      if n ∈ recStack' then
        some (some (path'.drop (path'.indexOf n) ++ [n]), vis)
      else some (none, vis)
    else recurse n vis

/-- Embedding of the recursive DFS `has_cycle_util` (scoring.py lines 246
to 263). The mutable sets of the Python code become explicit state: the
globally shared `visited` set threads through the traversal, the
`rec_stack` set observed by a frame always equals its chain of ancestors
(each frame removes itself on normal exit, and an early cycle return
discards the stack), and `path` is passed by value (`path[:]`). `fuel`
bounds the recursion depth; `none` models a recursion that would not
terminate within the given fuel. The result on success is
`(found cycle as an id path, final visited set)`. -/
def dfsVisit (graph : List (Int × List Int)) :
    Nat → Int → List Int → List Int → List Int →
    Option (Option (List Int) × List Int)
  | 0, _, _, _, _ => none
  | fuel + 1, node, visited, recStack, path =>
    let recStack' := node :: recStack
    let path' := path ++ [node]
    (graphLookup graph node).foldl
      (dfsStep (fun n vis => dfsVisit graph fuel n vis recStack' path') recStack' path')
      (some (none, node :: visited))

/-- Fuel that the embedding hands to `dfsVisit`: one unit per node the
traversal could ever enter (graph keys plus every id mentioned in a
dependency list) plus one. -/
def nodeFuel (graph : List (Int × List Int)) : Nat :=
  graph.length + (graph.map (fun p => p.2.length)).sum + 1

/-- One iteration of the outer loop of `detect_circular_dependencies`:
skip keys already in the global `visited` set, otherwise run the DFS
from the key with a fresh recursion stack and empty path, collecting any
found cycle. -/
def detectStep (graph : List (Int × List Int))
    (acc : Option (List (List Int) × List Int)) (p : Int × List Int) :
    Option (List (List Int) × List Int) :=
  match acc with
  | none => none
  | some (cycles, vis) =>
    if p.1 ∈ vis then some (cycles, vis)
    else
      match dfsVisit graph (nodeFuel graph) p.1 vis [] [] with
      | none => none
      | some (some cycle, vis') => some (cycles ++ [cycle], vis')
      | some (none, vis') => some (cycles, vis')

/-- Embedding of `detect_circular_dependencies` (scoring.py lines 227 to
277). The outer loop runs over the dict keys in insertion order,
threading the global `visited` set; each found cycle is appended as its
description. `none` models the (never reached) exhaustion of the DFS
fuel. -/
def detect_circular_dependencies (tasks : List Task) : Option (Bool × List String) :=
  let graph := buildGraph tasks
  let taskMap := buildTaskMap tasks
  let res := graph.foldl (detectStep graph) (some ([], []))
  match res with
  | none => none
  | some (cycles, _) =>
    some (decide (0 < cycles.length),
      cycles.map (fun c => String.intercalate " → " (c.map (lookupTitle taskMap))))

/-- An edge of the dependency graph: `b` is listed among the dependencies
stored for `a`. -/
def graphEdge (g : List (Int × List Int)) (a b : Int) : Prop := b ∈ graphLookup g a

/-- A dependency cycle in the graph: a walk of length at least two along
graph edges whose first and last nodes coincide. -/
def IsCycleWalk (g : List (Int × List Int)) (l : List Int) : Prop :=
  2 ≤ l.length ∧ l.Chain' (graphEdge g) ∧ l.head? = l.getLast?

/-- The row of the rendered explanation for a single factor: raw score,
strategy weight, weighted contribution, and the rationale text. -/
structure ExplanationRow where
  score : ℚ
  weight : ℚ
  contribution : ℚ
  note : String
deriving DecidableEq

/-- The multi-line explanation f-string of `calculate_final_score`,
modelled by the values interpolated into it (the rendered text is
injective in these fields, in particular the strategy name appears
verbatim in the first line). -/
structure Explanation where
  final_score : ℚ
  strategy : String
  urgency : ExplanationRow
  importance : ExplanationRow
  effort : ExplanationRow
  dependency : ExplanationRow
deriving DecidableEq

/-- The four raw factor scores of the returned `breakdown` dict. -/
structure Breakdown where
  urgency : ℚ
  importance : ℚ
  effort : ℚ
  dependency : ℚ
deriving DecidableEq

/-- The dict returned by `calculate_final_score`. -/
structure ScoreResult where
  final_score : ℚ
  breakdown : Breakdown
  weights : WeightVec
  explanation : Explanation
deriving DecidableEq

/-- Embedding of `calculate_final_score` (scoring.py lines 284 to 342).
`today` models `date.today()`, the ambient system date used when the
urgency score is computed without an explicit reference date. -/
def calculate_final_score (task : Task) (all_tasks : List Task)
    (strategy : String) (today : Int) : ScoreResult :=
  let weights := getStrategyWeights strategy
  let u := calculate_urgency_score task.due_date today
  let i := calculate_importance_score task.importance
  let e := calculate_effort_score task.estimated_hours
  let d := calculate_dependency_score task.id all_tasks
  let final_score :=
    round2 (u.1 * weights.urgency + i.1 * weights.importance +
      e.1 * weights.effort + d.1 * weights.dependency)
  { final_score := final_score
    breakdown := ⟨u.1, i.1, e.1, d.1⟩
    weights := weights
    explanation :=
      { final_score := final_score
        strategy := strategy
        urgency := ⟨u.1, weights.urgency, u.1 * weights.urgency, u.2⟩
        importance := ⟨i.1, weights.importance, i.1 * weights.importance, i.2⟩
        effort := ⟨e.1, weights.effort, e.1 * weights.effort, e.2⟩
        dependency := ⟨d.1, weights.dependency, d.1 * weights.dependency, d.2⟩ } }

/-- Embedding of `get_priority_level` (utils.py lines 131 to 146). -/
def get_priority_level (score : ℚ) : String :=
  if score ≥ 7 then "HIGH" else if score ≥ 4 then "MEDIUM" else "LOW"

/-- One entry of the scored task list built by `AnalyzeTasksView.post`:
the task dict spread together with the attached score fields. -/
structure ScoredTask where
  task : Task
  priority_score : ℚ
  score_breakdown : Breakdown
  score_explanation : Explanation
  priority_level : String
deriving DecidableEq

/-- The scoring loop of `AnalyzeTasksView.post` (views.py lines 80 to 93):
every validated task is scored against the full validated batch. -/
def scoreAll (validated_tasks : List Task) (strategy : String) (today : Int) :
    List ScoredTask :=
  validated_tasks.map (fun t =>
    let s := calculate_final_score t validated_tasks strategy today
    ⟨t, s.final_score, s.breakdown, s.explanation, get_priority_level s.final_score⟩)

/-- The sort of `AnalyzeTasksView.post` (views.py line 96):
`scored_tasks.sort(key=lambda x: x['priority_score'], reverse=True)`.
Python list sort is a stable sort; with `reverse=True` each comparison is
reversed while stability is preserved, which is exactly a stable merge
sort under the total preorder `b.priority_score ≤ a.priority_score`. -/
def rankTasks (validated_tasks : List Task) (strategy : String) (today : Int) :
    List ScoredTask :=
  (scoreAll validated_tasks strategy today).mergeSort
    (fun a b => decide (b.priority_score ≤ a.priority_score))

/-- Every node the DFS can ever enter: the graph keys together with every
id mentioned in a dependency list. -/
def nodeUniv (g : List (Int × List Int)) : Finset Int :=
  (g.map Prod.fst).toFinset ∪ (g.map Prod.snd).flatten.toFinset

/-- A task with only the fields that matter for the dependency graph:
no title, a parseable due date, one estimated hour, importance 5. -/
def mkTask (i : Int) (deps : List Int) : Task := ⟨i, none, .valid 0, 1, 5, deps⟩

/-- A task whose three factor inputs are all malformed: an unparseable
due-date string, an out-of-range importance and non-positive estimated
hours. -/
def malformedTask : Task := ⟨1, none, .invalid "not-a-date", 0, 0, []⟩

/-! Helper lemmas. -/

/-- The weight table maps the SMART_BALANCE key to the equal weight vector. -/
theorem getStrategyWeights_smart_balance :
    getStrategyWeights "SMART_BALANCE" = ⟨0.25, 0.25, 0.25, 0.25⟩ := by
  rfl

/-- A strategy name that is none of the four preset keys falls back to the
SMART_BALANCE weight vector. -/
theorem getStrategyWeights_eq_default (s : String)
    (h : s ∉ ["FASTEST_WINS", "HIGH_IMPACT", "DEADLINE_DRIVEN", "SMART_BALANCE"]) :
    getStrategyWeights s = ⟨0.25, 0.25, 0.25, 0.25⟩ := by
  simp only [List.mem_cons, List.not_mem_nil, or_false, not_or] at h
  obtain ⟨h1, h2, h3, h4⟩ := h
  simp [getStrategyWeights, STRATEGY_WEIGHTS, List.lookup,
    beq_eq_false_iff_ne.mpr h1, beq_eq_false_iff_ne.mpr h2,
    beq_eq_false_iff_ne.mpr h3, beq_eq_false_iff_ne.mpr h4]

/-- The accumulator of the `calculate_dependency_score` loop counts the
tasks whose dependency list contains the given id. -/
theorem dependency_fold_count (task_id : Int) (l : List Task) :
    ∀ (c : Nat) (ts : List String),
      (l.foldl (fun (acc : Nat × List String) t =>
        if task_id ∈ t.dependencies then (acc.1 + 1, acc.2 ++ [taskTitle t]) else acc)
        (c, ts)).1
      = c + l.countP (fun t => decide (task_id ∈ t.dependencies)) := by
  induction l with
  | nil => intro c ts; simp
  | cons t l ih =>
    intro c ts
    simp only [List.foldl_cons, List.countP_cons]
    by_cases h : task_id ∈ t.dependencies
    · rw [if_pos h, ih]
      simp [h]
      omega
    · rw [if_neg h, ih]
      simp [h]

/-! Claim C1. -/

/-- C1: `calculate_final_score` is total on structurally-typed tasks (its
Lean embedding returns a `ScoreResult` for every input by construction),
and each malformed individual field is replaced by the default sub-score
5.0 in the breakdown: an unparseable due date gives urgency 5.0, an
out-of-range importance gives importance 5.0, and non-positive estimated
hours give effort 5.0. -/
theorem calculate_final_score_total
    (t : Task) (batch : List Task) (strategy : String) (today : Int) :
    (∀ s, t.due_date = .invalid s →
      (calculate_final_score t batch strategy today).breakdown.urgency = 5) ∧
    (t.importance < 1 ∨ t.importance > 10 →
      (calculate_final_score t batch strategy today).breakdown.importance = 5) ∧
    (t.estimated_hours ≤ 0 →
      (calculate_final_score t batch strategy today).breakdown.effort = 5) := by
  refine ⟨fun s hs => ?_, fun h => ?_, fun h => ?_⟩
  · simp only [calculate_final_score, hs, calculate_urgency_score]
    norm_num
  · simp only [calculate_final_score, calculate_importance_score, if_pos h]
    norm_num
  · simp only [calculate_final_score, calculate_effort_score, if_pos h]
    norm_num

/-- Witness for C1: the defaults all fire on a task with three malformed
fields. -/
theorem calculate_final_score_total_witness :
    (calculate_final_score malformedTask [] "SMART_BALANCE" 0).breakdown.urgency = 5 ∧
    (calculate_final_score malformedTask [] "SMART_BALANCE" 0).breakdown.importance = 5 ∧
    (calculate_final_score malformedTask [] "SMART_BALANCE" 0).breakdown.effort = 5 := by
  obtain ⟨h1, h2, h3⟩ := calculate_final_score_total malformedTask [] "SMART_BALANCE" 0
  exact ⟨h1 "not-a-date" rfl, h2 (Or.inl (by norm_num [malformedTask])),
    h3 (by norm_num [malformedTask])⟩

/-! Claim C2. -/

/-- C2 counterexample: the claim says any non-integer input scores the
default 5.0, but the code only range-checks the value; the non-integer
rating 11/2 = 5.5 (denominator 2) lies inside [1,10] and is returned
verbatim, not replaced by 5.0. -/
theorem calculate_importance_score_noninteger_cex :
    (calculate_importance_score (11 / 2)).1 = 11 / 2 ∧
    (∀ n : ℤ, ((11 : ℚ) / 2) ≠ (n : ℚ)) ∧
    ((11 : ℚ) / 2) ≠ 5 := by
  refine ⟨?_, fun n hn => ?_, by norm_num⟩
  · norm_num [calculate_importance_score]
  · rw [div_eq_iff (by norm_num : (2:ℚ) ≠ 0)] at hn
    have h2 : (11 : ℤ) = n * 2 := by exact_mod_cast hn
    omega

/-- C2 amended: the importance score equals the input rating exactly for
every numeric rating in [1,10], integer or not, and equals the default
5.0 for every rating outside [1,10] (such as 0 or 11). -/
theorem calculate_importance_score_range (q : ℚ) :
    (1 ≤ q ∧ q ≤ 10 → (calculate_importance_score q).1 = q) ∧
    (q < 1 ∨ 10 < q → (calculate_importance_score q).1 = 5) := by
  constructor
  · rintro ⟨h1, h2⟩
    have hn : ¬(q < 1 ∨ q > 10) := by
      push_neg
      exact ⟨h1, h2⟩
    simp only [calculate_importance_score, if_neg hn]
  · intro h
    have h' : q < 1 ∨ q > 10 := h
    simp only [calculate_importance_score, if_pos h']
    norm_num

/-- Witness for C2 amended: an in-range rating is returned verbatim and an
out-of-range rating defaults. -/
theorem calculate_importance_score_range_witness :
    (calculate_importance_score 7).1 = 7 ∧ (calculate_importance_score 11).1 = 5 :=
  ⟨(calculate_importance_score_range 7).1 ⟨by norm_num, by norm_num⟩,
   (calculate_importance_score_range 11).2 (Or.inr (by norm_num))⟩

/-! Claim C5. -/

/-- C5 counterexample: the claim counts dependents among OTHER tasks, but
the source loop runs over the whole batch, so a task listing its own id
counts itself: with the single task `{id 1, dependencies [1]}` the
other-task count is 0 (which the claimed mapping sends to 3.0) while the
code returns 6.0. -/
theorem calculate_dependency_score_self_loop_cex :
    spec_blocking_count 1 [mkTask 1 [1]] = 0 ∧
    dependencyScoreOfCount 0 = 3 ∧
    (calculate_dependency_score 1 [mkTask 1 [1]]).1 = 6 := by
  refine ⟨by decide, by norm_num [dependencyScoreOfCount], ?_⟩
  norm_num [calculate_dependency_score, mkTask, taskTitle]

/-- C5 amended: the dependency score maps the number of tasks in the batch
whose dependency list contains the given id (a task listing its own id
counts itself) through the table 0 to 3.0, 1 to 6.0, 2 to 8.0,
and n > 2 to min 10.0 (8.0 + (n - 2) * 0.5), so a count of five gives
9.5. -/
theorem calculate_dependency_score_eq_mapping (task_id : Int) (all_tasks : List Task) :
    (calculate_dependency_score task_id all_tasks).1 =
      dependencyScoreOfCount
        (all_tasks.countP (fun t => decide (task_id ∈ t.dependencies))) := by
  simp only [calculate_dependency_score, dependencyScoreOfCount]
  rw [dependency_fold_count]
  simp only [Nat.zero_add]
  split_ifs <;> rfl

/-! Claim C8. -/

/-- C8: under SMART_BALANCE the final score is the rounded exact average
of the four factor scores, because the four weights are all 0.25. -/
theorem calculate_final_score_smart_balance_mean
    (t : Task) (batch : List Task) (today : Int) :
    (calculate_final_score t batch "SMART_BALANCE" today).final_score =
      round2 (((calculate_final_score t batch "SMART_BALANCE" today).breakdown.urgency +
        (calculate_final_score t batch "SMART_BALANCE" today).breakdown.importance +
        (calculate_final_score t batch "SMART_BALANCE" today).breakdown.effort +
        (calculate_final_score t batch "SMART_BALANCE" today).breakdown.dependency) / 4) := by
  simp only [calculate_final_score, getStrategyWeights_smart_balance]
  congr 1
  ring

/-! Claim C9. -/

/-- C9 counterexample: with an unknown strategy name the returned dict is
NOT identical to the SMART_BALANCE result, because the explanation text
interpolates the strategy name verbatim. -/
theorem unknown_strategy_result_differs :
    calculate_final_score (mkTask 1 []) [] "UNKNOWN" 0 ≠
      calculate_final_score (mkTask 1 []) [] "SMART_BALANCE" 0 := by
  intro h
  have h2 := congrArg (fun r => r.explanation.strategy) h
  simp only [calculate_final_score] at h2
  exact absurd h2 (by decide)

/-- C9 amended: an unknown strategy name never fails and produces the same
final score, the same breakdown and the same weight vector as
SMART_BALANCE, and its explanation differs only by displaying the given
strategy name. -/
theorem unknown_strategy_fallback (s : String)
    (h : s ∉ ["FASTEST_WINS", "HIGH_IMPACT", "DEADLINE_DRIVEN", "SMART_BALANCE"])
    (t : Task) (batch : List Task) (today : Int) :
    (calculate_final_score t batch s today).final_score =
      (calculate_final_score t batch "SMART_BALANCE" today).final_score ∧
    (calculate_final_score t batch s today).breakdown =
      (calculate_final_score t batch "SMART_BALANCE" today).breakdown ∧
    (calculate_final_score t batch s today).weights =
      (calculate_final_score t batch "SMART_BALANCE" today).weights ∧
    (calculate_final_score t batch s today).explanation =
      { (calculate_final_score t batch "SMART_BALANCE" today).explanation with
          strategy := s } := by
  simp [calculate_final_score, getStrategyWeights_eq_default s h,
    getStrategyWeights_smart_balance]

/-- Witness for C9 amended at the concrete unknown name UNKNOWN. -/
theorem unknown_strategy_fallback_witness :
    (calculate_final_score (mkTask 1 []) [] "UNKNOWN" 0).final_score =
      (calculate_final_score (mkTask 1 []) [] "SMART_BALANCE" 0).final_score ∧
    (calculate_final_score (mkTask 1 []) [] "UNKNOWN" 0).breakdown =
      (calculate_final_score (mkTask 1 []) [] "SMART_BALANCE" 0).breakdown := by
  obtain ⟨hf, hb, -, -⟩ :=
    unknown_strategy_fallback "UNKNOWN" (by decide) (mkTask 1 []) [] 0
  exact ⟨hf, hb⟩

/-! Claim C3. -/

/-- C3 counterexample: the effort score is NOT strictly decreasing over
all hours beyond 1h; it reaches the floor max(1.0, ...) = 1.0 at 23h, so
the pair 23 < 24 yields equal scores. -/
theorem calculate_effort_score_plateau_cex :
    (1 : ℚ) ≤ 23 ∧ (23 : ℚ) < 24 ∧
    (calculate_effort_score 24).1 = (calculate_effort_score 23).1 := by
  norm_num [calculate_effort_score, max_def]

/-- The score component of `calculate_effort_score` is `effortVal`. -/
theorem calculate_effort_score_fst (h : ℚ) :
    (calculate_effort_score h).1 = effortVal h := by
  simp only [calculate_effort_score, effortVal]
  split_ifs <;> rfl

/-- The score component of `calculate_urgency_score` on a parsed date is
`urgencyVal` of the days left. -/
theorem calculate_urgency_score_fst (dd today : ℤ) :
    (calculate_urgency_score (.valid dd) today).1 = urgencyVal (dd - today) := by
  simp only [calculate_urgency_score, urgencyVal]
  split_ifs <;> rfl

set_option maxHeartbeats 1000000 in
/-- The piecewise effort value never increases as hours grow past 1. -/
theorem effortVal_antitone (h1 h2 : ℚ) (hge : 1 ≤ h1) (hlt : h1 < h2) :
    effortVal h2 ≤ effortVal h1 := by
  simp only [effortVal, max_def]
  split_ifs <;> linarith

set_option maxHeartbeats 1000000 in
/-- The piecewise effort value strictly decreases while the larger input
has not reached the 1.0 floor. -/
theorem effortVal_strict_anti (h1 h2 : ℚ) (hge : 1 ≤ h1) (hlt : h1 < h2) (h23 : h2 ≤ 23) :
    effortVal h2 < effortVal h1 := by
  simp only [effortVal, max_def]
  split_ifs <;> linarith

/-- C3 amended: for 1 ≤ h1 < h2 the effort score is non-increasing, and it
is strictly decreasing as long as the larger input has not passed the
1.0 floor of the final branch (reached at 23h). -/
theorem calculate_effort_score_decreasing (h1 h2 : ℚ) (hge : 1 ≤ h1) (hlt : h1 < h2) :
    (calculate_effort_score h2).1 ≤ (calculate_effort_score h1).1 ∧
    (h2 ≤ 23 → (calculate_effort_score h2).1 < (calculate_effort_score h1).1) := by
  rw [calculate_effort_score_fst, calculate_effort_score_fst]
  exact ⟨effortVal_antitone h1 h2 hge hlt, effortVal_strict_anti h1 h2 hge hlt⟩

/-- Witness for C3 amended at the concrete pair 2 < 3. -/
theorem calculate_effort_score_decreasing_witness :
    (calculate_effort_score 3).1 ≤ (calculate_effort_score 2).1 ∧
    (calculate_effort_score 3).1 < (calculate_effort_score 2).1 := by
  obtain ⟨hle, hstrict⟩ := calculate_effort_score_decreasing 2 3 (by norm_num) (by norm_num)
  exact ⟨hle, hstrict (by norm_num)⟩

/-! Claim C4. -/

set_option maxHeartbeats 1000000 in
/-- The piecewise urgency value never increases as the days left grow
within the non-negative range. -/
theorem urgencyVal_antitone (d1 d2 : ℤ) (h0 : 0 ≤ d1) (h12 : d1 < d2) :
    urgencyVal d2 ≤ urgencyVal d1 := by
  simp only [urgencyVal, max_def]
  split_ifs <;>
    first
    | (exfalso; omega)
    | (qify at *; linarith)
    | (have h15 : (15 : ℚ) ≤ (d2 : ℚ) := by exact_mod_cast (by omega : (15:ℤ) ≤ d2)
       qify at *
       linarith)

/-- C4: for a parseable due date the urgency score is non-increasing in
the number of days left (for non-negative days left), and the score one
day ahead is strictly greater than thirty days ahead. -/
theorem calculate_urgency_score_antitone :
    (∀ (today d1 d2 : ℤ), 0 ≤ d1 → d1 < d2 →
      (calculate_urgency_score (.valid (today + d2)) today).1 ≤
        (calculate_urgency_score (.valid (today + d1)) today).1) ∧
    (∀ today : ℤ,
      (calculate_urgency_score (.valid (today + 30)) today).1 <
        (calculate_urgency_score (.valid (today + 1)) today).1) := by
  constructor
  · intro today d1 d2 h0 h12
    rw [calculate_urgency_score_fst, calculate_urgency_score_fst,
      add_sub_cancel_left, add_sub_cancel_left]
    exact urgencyVal_antitone d1 d2 h0 h12
  · intro today
    rw [calculate_urgency_score_fst, calculate_urgency_score_fst,
      add_sub_cancel_left, add_sub_cancel_left]
    norm_num [urgencyVal, max_def]

/-- Witness for C4 at today 0 with the day pairs (2, 5) and (1, 30). -/
theorem calculate_urgency_score_antitone_witness :
    (calculate_urgency_score (.valid (0 + 5)) 0).1 ≤
      (calculate_urgency_score (.valid (0 + 2)) 0).1 ∧
    (calculate_urgency_score (.valid (0 + 30)) 0).1 <
      (calculate_urgency_score (.valid (0 + 1)) 0).1 :=
  ⟨calculate_urgency_score_antitone.1 0 2 5 (by norm_num) (by norm_num),
   calculate_urgency_score_antitone.2 0⟩

/-! Claim C7. -/

/-- C7: for every batch the ranking step returns exactly as many scored
tasks as it was given, sorted by non-increasing final score, and the
sort is stable: the tasks carrying any fixed score value appear in the
output exactly in their original relative order (their filtered
subsequence is unchanged from the pre-sort scored list, which is the
input order). -/
theorem rankTasks_sorted_stable (tasks : List Task) (strategy : String) (today : Int) :
    (rankTasks tasks strategy today).length = tasks.length ∧
    (rankTasks tasks strategy today).Pairwise
      (fun a b => b.priority_score ≤ a.priority_score) ∧
    (∀ q : ℚ,
      (rankTasks tasks strategy today).filter (fun s => decide (s.priority_score = q)) =
        (scoreAll tasks strategy today).filter (fun s => decide (s.priority_score = q))) := by
  have htrans : ∀ a b c : ScoredTask,
      (fun a b : ScoredTask => decide (b.priority_score ≤ a.priority_score)) a b = true →
      (fun a b : ScoredTask => decide (b.priority_score ≤ a.priority_score)) b c = true →
      (fun a b : ScoredTask => decide (b.priority_score ≤ a.priority_score)) a c = true := by
    intro a b c hab hbc
    simp only [decide_eq_true_eq] at *
    exact le_trans hbc hab
  have htot : ∀ a b : ScoredTask,
      ((fun a b : ScoredTask => decide (b.priority_score ≤ a.priority_score)) a b ||
       (fun a b : ScoredTask => decide (b.priority_score ≤ a.priority_score)) b a) = true := by
    intro a b
    simp only [Bool.or_eq_true, decide_eq_true_eq]
    exact le_total b.priority_score a.priority_score
  refine ⟨?_, ?_, ?_⟩
  · have h1 : (rankTasks tasks strategy today).length =
        (scoreAll tasks strategy today).length :=
      (List.mergeSort_perm (scoreAll tasks strategy today)
        (fun a b => decide (b.priority_score ≤ a.priority_score))).length_eq
    rw [h1]
    simp [scoreAll]
  · have hs := List.sorted_mergeSort htrans htot (scoreAll tasks strategy today)
    exact hs.imp (fun h => of_decide_eq_true h)
  · intro q
    set l := scoreAll tasks strategy today with hl
    set p : ScoredTask → Bool := fun s => decide (s.priority_score = q) with hp
    have hpw : (l.filter p).Pairwise
        (fun a b =>
          (fun a b : ScoredTask => decide (b.priority_score ≤ a.priority_score)) a b = true) := by
      refine List.pairwise_of_forall_mem_list (fun a ha b hb => ?_)
      have ha2 : a.priority_score = q := by
        have := (List.mem_filter.mp ha).2
        simpa [hp] using this
      have hb2 : b.priority_score = q := by
        have := (List.mem_filter.mp hb).2
        simpa [hp] using this
      simp [ha2, hb2]
    have hsub : List.Sublist (l.filter p) (rankTasks tasks strategy today) :=
      List.sublist_mergeSort htrans htot hpw (List.filter_sublist l)
    have h2 : List.Sublist ((l.filter p).filter p)
        ((rankTasks tasks strategy today).filter p) := hsub.filter p
    have hfe : (l.filter p).filter p = l.filter p := by
      simp [List.filter_filter]
    rw [hfe] at h2
    have hperm : ((rankTasks tasks strategy today).filter p).Perm (l.filter p) :=
      (List.mergeSort_perm l _).filter p
    exact (h2.eq_of_length hperm.length_eq.symm).symm

/-! Lemmas for the dependency-graph DFS: the node universe, fuel
sufficiency (termination) and soundness of reported cycles. -/

theorem graphLookup_subset_univ (g : List (Int × List Int)) (k n : Int)
    (h : n ∈ graphLookup g k) : n ∈ nodeUniv g := by
  unfold graphLookup at h
  cases hf : g.find? (fun p => p.1 == k) with
  | none => rw [hf] at h; simp at h
  | some p =>
    rw [hf] at h
    have hp : p ∈ g := List.mem_of_find?_eq_some hf
    apply Finset.mem_union_right
    rw [List.mem_toFinset]
    exact List.mem_flatten.mpr ⟨p.2, List.mem_map_of_mem Prod.snd hp, h⟩

theorem key_mem_univ (g : List (Int × List Int)) (p : Int × List Int) (hp : p ∈ g) :
    p.1 ∈ nodeUniv g :=
  Finset.mem_union_left _ (List.mem_toFinset.mpr (List.mem_map_of_mem Prod.fst hp))

theorem card_nodeUniv_le (g : List (Int × List Int)) :
    (nodeUniv g).card ≤ nodeFuel g := by
  unfold nodeUniv nodeFuel
  have h1 := Finset.card_union_le (g.map Prod.fst).toFinset (g.map Prod.snd).flatten.toFinset
  have h2 : (g.map Prod.fst).toFinset.card ≤ g.length := by
    calc (g.map Prod.fst).toFinset.card ≤ (g.map Prod.fst).length := List.toFinset_card_le _
    _ = g.length := List.length_map _ _
  have h3 : (g.map Prod.snd).flatten.toFinset.card ≤ (g.map (fun p => p.2.length)).sum := by
    calc (g.map Prod.snd).flatten.toFinset.card ≤ (g.map Prod.snd).flatten.length :=
        List.toFinset_card_le _
    _ = ((g.map Prod.snd).map List.length).sum := by rw [List.length_flatten]
    _ = (g.map (fun p => p.2.length)).sum := by rw [List.map_map]; rfl
  omega

set_option maxHeartbeats 1000000 in
theorem dfsVisit_total (g : List (Int × List Int)) :
    ∀ (fuel : Nat) (node : Int) (visited recStack path : List Int),
      node ∈ nodeUniv g → node ∉ visited →
      (nodeUniv g \ visited.toFinset).card ≤ fuel →
      ∃ out vis',
        dfsVisit g fuel node visited recStack path = some (out, vis') ∧
        (∀ x ∈ visited, x ∈ vis') ∧
        (∀ x ∈ vis', x ∈ nodeUniv g ∨ x ∈ visited) := by
  intro fuel
  induction fuel with
  | zero =>
    intro node visited recStack path hnode hnv hcard
    exfalso
    have hm : node ∈ nodeUniv g \ visited.toFinset :=
      Finset.mem_sdiff.mpr ⟨hnode, fun hc => hnv (List.mem_toFinset.mp hc)⟩
    have := Finset.card_pos.mpr ⟨node, hm⟩
    omega
  | succ fuel ih =>
    intro node visited recStack path hnode hnv hcard
    have hfold : ∀ (ns : List Int), (∀ n ∈ ns, n ∈ nodeUniv g) →
        ∀ (st : Option (List Int)) (vis : List Int),
          (∀ x ∈ node :: visited, x ∈ vis) →
          (∀ x ∈ vis, x ∈ nodeUniv g ∨ x ∈ node :: visited) →
          (nodeUniv g \ vis.toFinset).card ≤ fuel →
          ∃ out vis',
            ns.foldl (dfsStep
                (fun n vis => dfsVisit g fuel n vis (node :: recStack) (path ++ [node]))
                (node :: recStack) (path ++ [node])) (some (st, vis)) = some (out, vis') ∧
            (∀ x ∈ vis, x ∈ vis') ∧
            (∀ x ∈ vis', x ∈ nodeUniv g ∨ x ∈ node :: visited) := by
      intro ns
      induction ns with
      | nil =>
        intro _ st vis h1 h2 h3
        exact ⟨st, vis, rfl, fun x hx => hx, h2⟩
      | cons n rest ihn =>
        intro hns st vis h1 h2 h3
        rw [List.foldl_cons]
        have hnsrest : ∀ m ∈ rest, m ∈ nodeUniv g :=
          fun m hm => hns m (List.mem_cons_of_mem n hm)
        cases st with
        | some c =>
          exact ihn hnsrest (some c) vis h1 h2 h3
        | none =>
          by_cases hv : n ∈ vis
          · by_cases hr : n ∈ node :: recStack
            · have hstep : dfsStep
                  (fun n vis => dfsVisit g fuel n vis (node :: recStack) (path ++ [node]))
                  (node :: recStack) (path ++ [node]) (some (none, vis)) n =
                  some (some ((path ++ [node]).drop ((path ++ [node]).indexOf n) ++ [n]), vis) := by
                simp [dfsStep, hv, hr]
              rw [hstep]
              exact ihn hnsrest (some _) vis h1 h2 h3
            · have hstep : dfsStep
                  (fun n vis => dfsVisit g fuel n vis (node :: recStack) (path ++ [node]))
                  (node :: recStack) (path ++ [node]) (some (none, vis)) n =
                  some (none, vis) := by
                simp [dfsStep, hv, hr]
              rw [hstep]
              exact ihn hnsrest none vis h1 h2 h3
          · have hstep : dfsStep
                (fun n vis => dfsVisit g fuel n vis (node :: recStack) (path ++ [node]))
                (node :: recStack) (path ++ [node]) (some (none, vis)) n =
                dfsVisit g fuel n vis (node :: recStack) (path ++ [node]) := by
              simp [dfsStep, hv]
            rw [hstep]
            obtain ⟨out2, vis2, heq2, hsub2, huniv2⟩ :=
              ih n vis (node :: recStack) (path ++ [node])
                (hns n (List.mem_cons_self n rest)) hv h3
            rw [heq2]
            have hvsub : vis.toFinset ⊆ vis2.toFinset := fun x hx =>
              List.mem_toFinset.mpr (hsub2 x (List.mem_toFinset.mp hx))
            have h3' : (nodeUniv g \ vis2.toFinset).card ≤ fuel :=
              le_trans (Finset.card_le_card
                (Finset.sdiff_subset_sdiff (Finset.Subset.refl _) hvsub)) h3
            have h1' : ∀ x ∈ node :: visited, x ∈ vis2 := fun x hx => hsub2 x (h1 x hx)
            have h2' : ∀ x ∈ vis2, x ∈ nodeUniv g ∨ x ∈ node :: visited := by
              intro x hx
              rcases huniv2 x hx with h | h
              · exact Or.inl h
              · exact h2 x h
            obtain ⟨out3, vis3, heq3, hsub3, huniv3⟩ := ihn hnsrest out2 vis2 h1' h2' h3'
            exact ⟨out3, vis3, heq3, fun x hx => hsub3 x (hsub2 x hx), huniv3⟩
    have hcard' : (nodeUniv g \ (node :: visited).toFinset).card ≤ fuel := by
      have hmem : node ∈ nodeUniv g \ visited.toFinset :=
        Finset.mem_sdiff.mpr ⟨hnode, fun hc => hnv (List.mem_toFinset.mp hc)⟩
      have hins : (node :: visited).toFinset = insert node visited.toFinset :=
        List.toFinset_cons
      rw [hins, Finset.sdiff_insert]
      have := Finset.card_erase_of_mem hmem
      omega
    obtain ⟨out, vis', heq, hsub, huniv⟩ := hfold (graphLookup g node)
      (fun n hn => graphLookup_subset_univ g node n hn)
      none (node :: visited)
      (fun x hx => hx)
      (fun x hx => Or.inr hx)
      hcard'
    refine ⟨out, vis', ?_, ?_, ?_⟩
    · simpa [dfsVisit] using heq
    · exact fun x hx => hsub x (List.mem_cons_of_mem node hx)
    · intro x hx
      rcases huniv x hx with h | h
      · exact Or.inl h
      · rcases List.mem_cons.mp h with h | h
        · exact Or.inl (h ▸ hnode)
        · exact Or.inr h

theorem dfsStep_foldl_none (R : Int → List Int → Option (Option (List Int) × List Int))
    (rs ps : List Int) :
    ∀ ns : List Int, ns.foldl (dfsStep R rs ps) none = none := by
  intro ns
  induction ns with
  | nil => rfl
  | cons n rest ihn => rw [List.foldl_cons]; exact ihn

theorem cycle_walk_of_found (g : List (Int × List Int)) (path' : List Int) (n : Int)
    (hchain : path'.Chain' (graphEdge g))
    (hmem : n ∈ path')
    (hedge : ∀ x ∈ path'.getLast?, graphEdge g x n) :
    IsCycleWalk g (path'.drop (path'.indexOf n) ++ [n]) := by
  have hlt : path'.indexOf n < path'.length := List.indexOf_lt_length.mpr hmem
  have hdroplen : (path'.drop (path'.indexOf n)).length = path'.length - path'.indexOf n :=
    List.length_drop _ _
  refine ⟨?_, ?_, ?_⟩
  · rw [List.length_append, hdroplen]
    simp
    omega
  · rw [List.chain'_append]
    refine ⟨hchain.drop _, List.chain'_singleton n, ?_⟩
    intro x hx y hy
    simp only [List.head?_cons, Option.mem_def, Option.some.injEq] at hy
    subst hy
    rw [List.getLast?_drop, if_neg (by omega)] at hx
    exact hedge x hx
  · rw [List.getLast?_concat]
    have hhd : (path'.drop (path'.indexOf n)).head? = some n := by
      rw [List.head?_drop]
      rw [List.getElem?_eq_getElem hlt]
      rw [List.getElem_indexOf hlt]
    rw [List.head?_append, hhd]
    rfl

set_option maxHeartbeats 1000000 in
theorem dfsVisit_sound (g : List (Int × List Int)) :
    ∀ (fuel : Nat) (node : Int) (visited recStack path : List Int),
      (path ++ [node]).Chain' (graphEdge g) →
      (∀ r ∈ recStack, r ∈ path) →
      ∀ out vis', dfsVisit g fuel node visited recStack path = some (out, vis') →
      ∀ c, out = some c → IsCycleWalk g c := by
  intro fuel
  induction fuel with
  | zero =>
    intro node visited recStack path _ _ out vis' heq
    simp [dfsVisit] at heq
  | succ fuel ih =>
    intro node visited recStack path hchain hrec out vis' heq c hc
    have hlast : (path ++ [node]).getLast? = some node := List.getLast?_concat path
    have hfold : ∀ ns : List Int, (∀ n ∈ ns, graphEdge g node n) →
        ∀ (st : Option (List Int)) (vis : List Int),
          (∀ c0, st = some c0 → IsCycleWalk g c0) →
          ∀ out2 vis2,
            ns.foldl (dfsStep
                (fun n vis => dfsVisit g fuel n vis (node :: recStack) (path ++ [node]))
                (node :: recStack) (path ++ [node])) (some (st, vis)) = some (out2, vis2) →
            ∀ c0, out2 = some c0 → IsCycleWalk g c0 := by
      intro ns
      induction ns with
      | nil =>
        intro _ st vis hst out2 vis2 hfe c0 hc0
        rw [List.foldl_nil] at hfe
        injection hfe with hfe1
        injection hfe1 with hst2 hvis2
        exact hst c0 (hst2 ▸ hc0)
      | cons n rest ihn =>
        intro hns st vis hst out2 vis2 hfe c0 hc0
        rw [List.foldl_cons] at hfe
        have hnsrest : ∀ m ∈ rest, graphEdge g node m :=
          fun m hm => hns m (List.mem_cons_of_mem n hm)
        cases st with
        | some c1 =>
          exact ihn hnsrest (some c1) vis hst out2 vis2 hfe c0 hc0
        | none =>
          by_cases hv : n ∈ vis
          · by_cases hr : n ∈ node :: recStack
            · have hstep : dfsStep
                  (fun n vis => dfsVisit g fuel n vis (node :: recStack) (path ++ [node]))
                  (node :: recStack) (path ++ [node]) (some (none, vis)) n =
                  some (some ((path ++ [node]).drop ((path ++ [node]).indexOf n) ++ [n]), vis) := by
                simp [dfsStep, hv, hr]
              rw [hstep] at hfe
              have hnpath : n ∈ path ++ [node] := by
                rcases List.mem_cons.mp hr with h | h
                · subst h
                  exact List.mem_append_right _ (List.mem_cons_self _ _)
                · exact List.mem_append_left _ (hrec n h)
              have hcyc : IsCycleWalk g
                  ((path ++ [node]).drop ((path ++ [node]).indexOf n) ++ [n]) := by
                refine cycle_walk_of_found g (path ++ [node]) n hchain hnpath ?_
                intro x hx
                rw [hlast] at hx
                injection hx with hx
                subst hx
                exact hns n (List.mem_cons_self _ _)
              refine ihn hnsrest (some _) vis (fun c2 hc2 => ?_) out2 vis2 hfe c0 hc0
              injection hc2 with hc2
              exact hc2 ▸ hcyc
            · have hstep : dfsStep
                  (fun n vis => dfsVisit g fuel n vis (node :: recStack) (path ++ [node]))
                  (node :: recStack) (path ++ [node]) (some (none, vis)) n =
                  some (none, vis) := by
                simp [dfsStep, hv, hr]
              rw [hstep] at hfe
              exact ihn hnsrest none vis hst out2 vis2 hfe c0 hc0
          · have hstep : dfsStep
                (fun n vis => dfsVisit g fuel n vis (node :: recStack) (path ++ [node]))
                (node :: recStack) (path ++ [node]) (some (none, vis)) n =
                dfsVisit g fuel n vis (node :: recStack) (path ++ [node]) := by
              simp [dfsStep, hv]
            rw [hstep] at hfe
            cases hres : dfsVisit g fuel n vis (node :: recStack) (path ++ [node]) with
            | none =>
              rw [hres, dfsStep_foldl_none] at hfe
              exact absurd hfe (by simp)
            | some r =>
              obtain ⟨out3, vis3⟩ := r
              rw [hres] at hfe
              have hchain' : ((path ++ [node]) ++ [n]).Chain' (graphEdge g) := by
                rw [List.chain'_append]
                refine ⟨hchain, List.chain'_singleton n, ?_⟩
                intro x hx y hy
                rw [hlast] at hx
                injection hx with hx
                subst hx
                simp only [List.head?_cons, Option.mem_def, Option.some.injEq] at hy
                subst hy
                exact hns n (List.mem_cons_self _ _)
              have hrec' : ∀ r ∈ node :: recStack, r ∈ path ++ [node] := by
                intro r hrr
                rcases List.mem_cons.mp hrr with h | h
                · subst h
                  exact List.mem_append_right _ (List.mem_cons_self _ _)
                · exact List.mem_append_left _ (hrec r h)
              have hsound3 := ih n vis (node :: recStack) (path ++ [node])
                hchain' hrec' out3 vis3 hres
              exact ihn hnsrest out3 vis3 hsound3 out2 vis2 hfe c0 hc0
    have heq2 : (graphLookup g node).foldl (dfsStep
        (fun n vis => dfsVisit g fuel n vis (node :: recStack) (path ++ [node]))
        (node :: recStack) (path ++ [node])) (some (none, node :: visited)) =
        some (out, vis') := by
      simpa [dfsVisit] using heq
    exact hfold (graphLookup g node) (fun n hn => hn) none (node :: visited)
      (fun c0 hc0 => by simp at hc0) out vis' heq2 c hc

theorem detectFold_total (g : List (Int × List Int)) :
    ∀ (entries : List (Int × List Int)), (∀ p ∈ entries, p.1 ∈ nodeUniv g) →
    ∀ (cycles : List (List Int)) (vis : List Int), (∀ x ∈ vis, x ∈ nodeUniv g) →
    ∃ cycles' vis', entries.foldl (detectStep g) (some (cycles, vis)) = some (cycles', vis') ∧
      (∀ x ∈ vis', x ∈ nodeUniv g) := by
  intro entries
  induction entries with
  | nil =>
    intro _ cycles vis hvis
    exact ⟨cycles, vis, rfl, hvis⟩
  | cons p rest ihp =>
    intro hent cycles vis hvis
    rw [List.foldl_cons]
    have hrest : ∀ q ∈ rest, q.1 ∈ nodeUniv g :=
      fun q hq => hent q (List.mem_cons_of_mem p hq)
    by_cases hv : p.1 ∈ vis
    · have hstep : detectStep g (some (cycles, vis)) p = some (cycles, vis) := by
        simp [detectStep, hv]
      rw [hstep]
      exact ihp hrest cycles vis hvis
    · have hcard : (nodeUniv g \ vis.toFinset).card ≤ nodeFuel g :=
        le_trans (Finset.card_le_card (Finset.sdiff_subset)) (card_nodeUniv_le g)
      obtain ⟨out, vis2, heq, hsub, huniv⟩ := dfsVisit_total g (nodeFuel g) p.1 vis [] []
        (hent p (List.mem_cons_self _ _)) hv hcard
      have hvis2 : ∀ x ∈ vis2, x ∈ nodeUniv g := by
        intro x hx
        rcases huniv x hx with h | h
        · exact h
        · exact hvis x h
      cases out with
      | some c =>
        have hstep : detectStep g (some (cycles, vis)) p = some (cycles ++ [c], vis2) := by
          simp [detectStep, hv, heq]
        rw [hstep]
        exact ihp hrest (cycles ++ [c]) vis2 hvis2
      | none =>
        have hstep : detectStep g (some (cycles, vis)) p = some (cycles, vis2) := by
          simp [detectStep, hv, heq]
        rw [hstep]
        exact ihp hrest cycles vis2 hvis2

theorem detectFold_acyclic (g : List (Int × List Int)) (hacyc : ∀ l, ¬ IsCycleWalk g l) :
    ∀ (entries : List (Int × List Int)), (∀ p ∈ entries, p.1 ∈ nodeUniv g) →
    ∀ (vis : List Int), (∀ x ∈ vis, x ∈ nodeUniv g) →
    ∃ vis', entries.foldl (detectStep g) (some ([], vis)) = some ([], vis') ∧
      (∀ x ∈ vis', x ∈ nodeUniv g) := by
  intro entries
  induction entries with
  | nil =>
    intro _ vis hvis
    exact ⟨vis, rfl, hvis⟩
  | cons p rest ihp =>
    intro hent vis hvis
    rw [List.foldl_cons]
    have hrest : ∀ q ∈ rest, q.1 ∈ nodeUniv g :=
      fun q hq => hent q (List.mem_cons_of_mem p hq)
    by_cases hv : p.1 ∈ vis
    · have hstep : detectStep g (some ([], vis)) p = some ([], vis) := by
        simp [detectStep, hv]
      rw [hstep]
      exact ihp hrest vis hvis
    · have hcard : (nodeUniv g \ vis.toFinset).card ≤ nodeFuel g :=
        le_trans (Finset.card_le_card (Finset.sdiff_subset)) (card_nodeUniv_le g)
      obtain ⟨out, vis2, heq, hsub, huniv⟩ := dfsVisit_total g (nodeFuel g) p.1 vis [] []
        (hent p (List.mem_cons_self _ _)) hv hcard
      have hvis2 : ∀ x ∈ vis2, x ∈ nodeUniv g := by
        intro x hx
        rcases huniv x hx with h | h
        · exact h
        · exact hvis x h
      cases out with
      | some c =>
        exfalso
        have hchain : (([] : List Int) ++ [p.1]).Chain' (graphEdge g) := by
          simp
        have hcyc := dfsVisit_sound g (nodeFuel g) p.1 vis [] [] hchain
          (by intro r hr; simp at hr) (some c) vis2 heq c rfl
        exact hacyc c hcyc
      | none =>
        have hstep : detectStep g (some ([], vis)) p = some ([], vis2) := by
          simp [detectStep, hv, heq]
        rw [hstep]
        exact ihp hrest vis2 hvis2

/-- C10: `detect_circular_dependencies` terminates on every batch,
including batches whose dependency lists reference task ids not present
in the batch: the fuel-indexed DFS never exhausts its fuel (the result
is never the `none` that models non-termination), because the global
visited set admits each node at most once; and a referenced id that is
not a graph key is looked up as having no outgoing edges. -/
theorem detect_circular_dependencies_terminates :
    (∀ tasks : List Task, (detect_circular_dependencies tasks).isSome = true) ∧
    (∀ (g : List (Int × List Int)) (n : Int),
      (∀ p ∈ g, p.1 ≠ n) → graphLookup g n = []) := by
  constructor
  · intro tasks
    obtain ⟨cycles', vis', heq, -⟩ := detectFold_total (buildGraph tasks) (buildGraph tasks)
      (fun p hp => key_mem_univ _ p hp) [] [] (by simp)
    simp only [detect_circular_dependencies]
    rw [heq]
    simp
  · intro g n h
    have hf : g.find? (fun p => p.1 == n) = none := by
      rw [List.find?_eq_none]
      intro p hp
      simpa using h p hp
    simp [graphLookup, hf]

/-- C6: cycle detection never fails and returns an empty report
(has_cycles false, no descriptions) on the empty batch and on every
acyclic batch; on the two-task batch with mutual dependencies it reports
has_cycles true with exactly one cycle description containing both
tasks; and on the three-task chain it reports no cycles. -/
theorem detect_circular_dependencies_spec :
    detect_circular_dependencies [] = some (false, []) ∧
    (∀ tasks, (∀ l, ¬ IsCycleWalk (buildGraph tasks) l) →
      detect_circular_dependencies tasks = some (false, [])) ∧
    detect_circular_dependencies [mkTask 1 [2], mkTask 2 [1]] =
      some (true, ["Task 1 → Task 2 → Task 1"]) ∧
    detect_circular_dependencies [mkTask 1 [], mkTask 2 [1], mkTask 3 [2]] =
      some (false, []) := by
  refine ⟨by decide, ?_, by decide, by decide⟩
  intro tasks hacyc
  obtain ⟨vis', heq, -⟩ := detectFold_acyclic (buildGraph tasks) hacyc (buildGraph tasks)
    (fun p hp => key_mem_univ _ p hp) [] (by simp)
  simp only [detect_circular_dependencies]
  rw [heq]
  simp

/-- Witness for C6: the acyclic-batch conjunct applied to the empty batch,
whose graph has no edges and hence no cycle walk. -/
theorem detect_circular_dependencies_spec_witness :
    detect_circular_dependencies [] = some (false, []) := by
  refine detect_circular_dependencies_spec.2.1 [] (fun l hl => ?_)
  obtain ⟨hlen, hchain, hcycle⟩ := hl
  cases l with
  | nil => simp at hlen
  | cons a tl =>
    cases tl with
    | nil => simp at hlen
    | cons b rest =>
      obtain ⟨hab, -⟩ := List.chain'_cons.mp hchain
      simp [graphEdge, graphLookup, buildGraph] at hab

/-- Witness for C10: the termination statement at a batch whose dependency
references a task id absent from the batch, and the absent key has no
outgoing edges. -/
theorem detect_circular_dependencies_terminates_witness :
    (detect_circular_dependencies [mkTask 1 [2]]).isSome = true ∧
    graphLookup [((1 : Int), [(2 : Int)])] 3 = [] :=
  ⟨detect_circular_dependencies_terminates.1 [mkTask 1 [2]],
   detect_circular_dependencies_terminates.2 [(1, [2])] 3 (by decide)⟩

end TaskAnalyzer
